import Mathlib

/-!
Shallow embedding of `Algorithm.Python/FutureOptionShortPutOTMExpiryRegressionAlgorithm.py`.

The script is a regression algorithm for the QuantConnect engine: it selects a
future option contract from a host-supplied option chain, schedules one market
sell order, and asserts facts about delisting events, order events and the final
portfolio state.  Host-supplied data (option chain, data slices, order events,
securities map, portfolio) are inputs; each callback is modelled as a pure
function returning an `Except` result (an uncaught Python exception) together
with the unchanged instance state.  Python `datetime` values are modelled as a
record of calendar fields; decimal/float quantities as `Rat`.
-/

namespace FOSP

/-- Calendar datetime with the fields the script compares (Python `datetime`
values constructed as `datetime(y, m, d)` have all time-of-day fields zero). -/
structure DateTime where
  year : Nat
  month : Nat
  day : Nat
  hour : Nat
  minute : Nat
  second : Nat
deriving DecidableEq, Repr

/-- The datetime `datetime(y, m, d)`: midnight of the given day. -/
def dateOf (y m d : Nat) : DateTime :=
  ⟨y, m, d, 0, 0, 0⟩

/-- Markets referenced by the script (`Market.CME`, plus the default equity
market used by `AddEquity("AAPL")`). -/
inductive Market
  | CME
  | USA
deriving DecidableEq, Repr

/-- Option right (`OptionRight.Call = 0` is the C# enum default). -/
inductive OptionRight
  | Call
  | Put
deriving DecidableEq, Repr

/-- Option style. -/
inductive OptionStyle
  | American
  | European
deriving DecidableEq, Repr

/-- Security identifiers, covering the three kinds the script touches: the AAPL
equity, the ES future, and future option contracts.  The fields of the `option`
constructor are those of `Symbol.CreateOption`. -/
inductive Symbol
  | equity (ticker : String) (market : Market)
  | future (ticker : String) (market : Market) (expiry : DateTime)
  | option (underlying : Symbol) (market : Market) (style : OptionStyle)
      (right : OptionRight) (strike : Rat) (expiry : DateTime)
deriving DecidableEq, Repr

/-- The engine factory `Symbol.CreateFuture(ticker, market, expiry)`. -/
def Symbol.CreateFuture (ticker : String) (market : Market) (expiry : DateTime) : Symbol :=
  .future ticker market expiry

/-- The engine factory
`Symbol.CreateOption(underlying, market, style, right, strike, expiry)`. -/
def Symbol.CreateOption (underlying : Symbol) (market : Market) (style : OptionStyle)
    (right : OptionRight) (strike : Rat) (expiry : DateTime) : Symbol :=
  .option underlying market style right strike expiry

/-- The engine property `symbol.ID.StrikePrice` (zero for non-options, the C#
default). -/
def Symbol.strikePrice : Symbol → Rat
  | .option _ _ _ _ k _ => k
  | _ => 0

/-- The engine property `symbol.ID.OptionRight` (`Call`, the enum default, for
non-options). -/
def Symbol.optionRight : Symbol → OptionRight
  | .option _ _ _ r _ _ => r
  | _ => .Call

/-- An uncaught Python exception: `IndexError` from an out-of-range subscript,
or `AssertionError` raised explicitly with a message. -/
inductive PyError
  | indexError
  | assertionError (msg : String)
deriving DecidableEq, Repr

/-- The ticker `Futures.Indices.SP500EMini`. -/
def sp500EMini : String := "ES"

/-- The underlying future symbol built in the setup method:
`Symbol.CreateFuture(Futures.Indices.SP500EMini, Market.CME, datetime(2021, 3, 19))`. -/
def es19h21 : Symbol :=
  Symbol.CreateFuture sp500EMini .CME (dateOf 2021 3 19)

/-- The expected option contract built in the setup method:
`Symbol.CreateOption(es19h21, Market.CME, OptionStyle.American, OptionRight.Put, 3200.0, datetime(2021, 3, 19))`. -/
def expectedContract : Symbol :=
  Symbol.CreateOption es19h21 .CME .American .Put 3200 (dateOf 2021 3 19)

/-- The list comprehension filter in the setup method: keep chain entries with
`x.ID.StrikePrice >= 3200.0 and x.ID.OptionRight == OptionRight.Put`. -/
def chainFilter (chain : List Symbol) : List Symbol :=
  chain.filter fun x => decide ((3200 : Rat) ≤ x.strikePrice) && decide (x.optionRight = .Put)

/-- The ordering used by `sorted(..., key=lambda x: x.ID.StrikePrice)`. -/
def strikeLE (a b : Symbol) : Prop :=
  a.strikePrice ≤ b.strikePrice

instance : DecidableRel strikeLE := fun a b =>
  inferInstanceAs (Decidable (a.strikePrice ≤ b.strikePrice))

/-- The filtered chain sorted ascending by strike price.  Python `sorted` is a
stable sort keyed by strike; `List.insertionSort` with the non-strict key order
is the stable sort with the same output. -/
def chainSorted (chain : List Symbol) : List Symbol :=
  (chainFilter chain).insertionSort strikeLE

/-- The message of the setup assertion (the Python message interpolates the
expected contract; the text is abbreviated here). -/
def contractMismatchMsg : String := "Contract was not found in the chain"

/-- The contract-selection part of the setup method: filter the option chain,
sort ascending by strike, take element `[0]` (an `IndexError` when the filtered
list is empty), then raise an `AssertionError` unless the selected contract
equals `expectedContract`. -/
def initializeSelection (chain : List Symbol) : Except PyError Symbol :=
  match chainSorted chain with
  | [] => .error .indexError
  | esOption :: _ =>
      if esOption ≠ expectedContract then
        .error (.assertionError contractMismatchMsg)
      else
        .ok esOption

/-- The instance fields the script assigns in the setup method and reads in
later callbacks: `self.es19h21`, `self.esOption`, `self.expectedContract`. -/
structure AlgoState where
  es19h21 : Symbol
  esOption : Symbol
  expectedContract : Symbol
deriving DecidableEq, Repr

/-- The whole setup method as far as state is concerned: select the contract
from the chain and populate the three instance fields. -/
def initializeState (chain : List Symbol) : Except PyError AlgoState :=
  match initializeSelection chain with
  | .error e => .error e
  | .ok c => .ok ⟨es19h21, c, expectedContract⟩

/-- Order status values of the engine; the handler only distinguishes
`Filled` from the rest. -/
inductive OrderStatus
  | New
  | Submitted
  | PartiallyFilled
  | Filled
  | Canceled
  | Invalid
  | CancelPending
  | UpdateSubmitted
deriving DecidableEq, Repr

/-- Order direction values of the engine. -/
inductive OrderDirection
  | Buy
  | Sell
  | Hold
deriving DecidableEq, Repr

/-- The fields of an engine `OrderEvent` the script reads: `Symbol`, `Status`,
`Direction`, `IsAssignment`. -/
structure OrderEvent where
  symbol : Symbol
  status : OrderStatus
  direction : OrderDirection
  isAssignment : Bool
deriving DecidableEq, Repr

/-- The holdings record of a security; the script reads `Holdings.Quantity`
(a decimal). -/
structure Holdings where
  quantity : Rat
deriving DecidableEq, Repr

/-- A security as stored in the `Securities` collection: its `Symbol` property
and its holdings. -/
structure Security where
  symbol : Symbol
  holdings : Holdings
deriving DecidableEq, Repr

/-- The `Securities` collection, a map from symbol to security, as an
association list. -/
abbrev Securities := List (Symbol × Security)

/-- The two delisting phases of the engine. -/
inductive DelistingType
  | Warning
  | Delisted
deriving DecidableEq, Repr

/-- The fields of an engine `Delisting` event the data handler can see: the
affected symbol, the phase, and the timestamp. -/
structure Delisting where
  symbol : Symbol
  type : DelistingType
  time : DateTime
deriving DecidableEq, Repr

/-- The portfolio facts the end-of-run handler reads: the `Invested` flag and
the key list used in the failure message. -/
structure Portfolio where
  invested : Bool
  keys : List Symbol
deriving DecidableEq, Repr

/-- A market-order submission `self.MarketOrder(symbol, quantity)`. -/
structure OrderRequest where
  symbol : Symbol
  quantity : Rat
deriving DecidableEq, Repr

/-- The scheduled callback: `self.MarketOrder(self.esOption, -1)` and nothing
else.  Returns the submitted orders and the unchanged instance state. -/
def ScheduledMarketOrder (s : AlgoState) : List OrderRequest × AlgoState :=
  ([⟨s.esOption, -1⟩], s)

/-- The check the data handler performs on one delisting event: a `Warning`
must be timestamped `datetime(2021, 3, 19)` and a `Delisted` must be
timestamped `datetime(2021, 3, 20)`. -/
def checkDelisting (d : Delisting) : Except PyError Unit :=
  if d.type = .Warning ∧ d.time ≠ dateOf 2021 3 19 then
    .error (.assertionError "Delisting warning issued at unexpected date")
  else if d.type = .Delisted ∧ d.time ≠ dateOf 2021 3 20 then
    .error (.assertionError "Delisting happened at unexpected date")
  else
    .ok ()

/-- The loop of the data handler over `data.Delistings.Values`: the first
violated check raises and aborts the loop. -/
def checkDelistings : List Delisting → Except PyError Unit
  | [] => .ok ()
  | d :: rest =>
      match checkDelisting d with
      | .error e => .error e
      | .ok _ => checkDelistings rest

/-- The data handler `OnData`: assert the delisting timestamps in the slice;
no instance field is assigned. -/
def OnData (s : AlgoState) (delistings : List Delisting) :
    Except PyError Unit × AlgoState :=
  (checkDelistings delistings, s)

/-- The holdings assertion routine: after a sell fill the option holdings
quantity must be `-1`; after a buy fill it must be `0`; the fill must not be an
assignment. -/
def AssertFutureOptionContractOrder (s : AlgoState) (orderEvent : OrderEvent)
    (optionContract : Security) : Except PyError Unit × AlgoState :=
  if orderEvent.direction = .Sell ∧ optionContract.holdings.quantity ≠ -1 then
    (.error (.assertionError "No holdings were created for option contract"), s)
  else if orderEvent.direction = .Buy ∧ optionContract.holdings.quantity ≠ 0 then
    (.error (.assertionError "Expected no options holdings after closing position"), s)
  else if orderEvent.isAssignment then
    (.error (.assertionError "Assignment was not expected"), s)
  else
    (.ok (), s)

/-- The order-event handler `OnOrderEvent`: return on non-fills; otherwise the
symbol must be a known security, must not be the underlying future, and must be
the expected contract, in which case the holdings assertion routine runs. -/
def OnOrderEvent (s : AlgoState) (securities : Securities) (orderEvent : OrderEvent) :
    Except PyError Unit × AlgoState :=
  if orderEvent.status ≠ .Filled then
    (.ok (), s)
  else
    match securities.lookup orderEvent.symbol with
    | none =>
        (.error (.assertionError "Order event Symbol not found in Securities collection"), s)
    | some security =>
        if security.symbol = s.es19h21 then
          (.error (.assertionError "Expected no order events for underlying Symbol"), s)
        else if security.symbol = s.expectedContract then
          AssertFutureOptionContractOrder s orderEvent security
        else
          (.error (.assertionError "Received order event for unknown Symbol"), s)

/-- The end-of-run handler `OnEndOfAlgorithm`: raise when the portfolio is
still invested. -/
def OnEndOfAlgorithm (s : AlgoState) (portfolio : Portfolio) :
    Except PyError Unit × AlgoState :=
  if portfolio.invested then
    (.error (.assertionError "Expected no holdings at end of algorithm"), s)
  else
    (.ok (), s)

/-- One host-driven invocation of a callback after setup, with the
host-supplied data it carries. -/
inductive HostEvent
  | scheduledFire
  | dataSlice (delistings : List Delisting)
  | orderEvent (securities : Securities) (e : OrderEvent)
  | endOfRun (portfolio : Portfolio)
deriving Repr

/-- Dispatch one host event to the matching callback; the middle component
lists the orders the callback submitted. -/
def step (s : AlgoState) : HostEvent → Except PyError Unit × List OrderRequest × AlgoState
  | .scheduledFire =>
      let r := ScheduledMarketOrder s
      (.ok (), r.1, r.2)
  | .dataSlice ds =>
      let r := OnData s ds
      (r.1, [], r.2)
  | .orderEvent secs e =>
      let r := OnOrderEvent s secs e
      (r.1, [], r.2)
  | .endOfRun p =>
      let r := OnEndOfAlgorithm s p
      (r.1, [], r.2)

/-- A run after setup: the host delivers the events in order; an uncaught
exception aborts the run.  On success, all submitted orders and the final
instance state are returned. -/
def run (s : AlgoState) : List HostEvent → Except PyError (List OrderRequest × AlgoState)
  | [] => .ok ([], s)
  | ev :: rest =>
      match step s ev with
      | (.error e, _, _) => .error e
      | (.ok _, orders, s1) =>
          match run s1 rest with
          | .error e => .error e
          | .ok (os, s2) => .ok (orders ++ os, s2)

/-- The number of scheduled-callback firings in an event trace. -/
def countScheduled (evs : List HostEvent) : Nat :=
  evs.countP fun ev =>
    match ev with
    | .scheduledFire => true
    | _ => false

/-- A put contract on the ES future with the given strike, used as concrete
test data. -/
def wPut (k : Rat) : Symbol :=
  Symbol.CreateOption es19h21 .CME .American .Put k (dateOf 2021 3 19)

/-- A call contract on the ES future with the given strike, used as concrete
test data. -/
def wCall (k : Rat) : Symbol :=
  Symbol.CreateOption es19h21 .CME .American .Call k (dateOf 2021 3 19)

/-- A concrete option chain: two qualifying puts (out of order), a call, and a
below-threshold put. -/
def wChain : List Symbol :=
  [wPut 3300, wCall 3200, wPut 3200, wPut 3000]

/-- A concrete option chain with no put at or above the strike threshold. -/
def wEmptyChain : List Symbol :=
  [wCall 3200, wPut 3000]

/-- The instance state as the setup method leaves it in the expected
scenario. -/
def wState : AlgoState :=
  ⟨es19h21, expectedContract, expectedContract⟩

/-- A concrete AAPL equity symbol (the liquidity-anchor equity added by the
setup method). -/
def wAapl : Symbol :=
  .equity "AAPL" .USA

/-- Replace the symbol of a delisting event, keeping phase and timestamp. -/
def relabel (f : Symbol → Symbol) (d : Delisting) : Delisting :=
  { d with symbol := f d.symbol }

/-- A concrete securities map holding only the AAPL equity, flat. -/
def wSecs : Securities :=
  [(wAapl, ⟨wAapl, ⟨0⟩⟩)]

/-- A concrete fill event on the AAPL equity. -/
def wEvent : OrderEvent :=
  ⟨wAapl, .Filled, .Sell, false⟩

/-- A concrete event trace: one empty data slice, the scheduled firing, and the
end of the run with a flat portfolio. -/
def w6Events : List HostEvent :=
  [.dataSlice [], .scheduledFire, .endOfRun ⟨false, []⟩]

instance : IsTotal Symbol strikeLE :=
  ⟨fun a b => le_total a.strikePrice b.strikePrice⟩

instance : IsTrans Symbol strikeLE :=
  ⟨fun _ _ _ hab hbc => le_trans hab hbc⟩

/-- Claim C1: in the setup method, the chain returned for the underlying at the
fixed query date is filtered to put contracts with strike at least 3200 and
sorted ascending by strike; the first contract of the sorted list is selected,
and an AssertionError is raised exactly when it differs from the independently
constructed expected contract
`Symbol.CreateOption(es19h21, CME, American, Put, 3200.0, 2021-03-19)`. -/
theorem initialize_selects_lowest_strike_put (chain : List Symbol) (c : Symbol)
    (rest : List Symbol) (h : chainSorted chain = c :: rest) :
    expectedContract =
      Symbol.CreateOption es19h21 .CME .American .Put 3200 (dateOf 2021 3 19) ∧
    c ∈ chainFilter chain ∧
    c.optionRight = .Put ∧
    (3200 : Rat) ≤ c.strikePrice ∧
    (∀ x ∈ chainFilter chain, c.strikePrice ≤ x.strikePrice) ∧
    (initializeSelection chain = .ok c ↔ c = expectedContract) ∧
    (initializeSelection chain = .error (.assertionError contractMismatchMsg) ↔
      c ≠ expectedContract) := by
  have hmemSorted : c ∈ chainSorted chain := by
    rw [h]; exact List.mem_cons_self c rest
  have hmem : c ∈ chainFilter chain :=
    (List.mem_insertionSort strikeLE).mp hmemSorted
  have hpred := (List.mem_filter.mp hmem).2
  rw [Bool.and_eq_true, decide_eq_true_eq, decide_eq_true_eq] at hpred
  have hsorted : List.Sorted strikeLE (c :: rest) :=
    h ▸ List.sorted_insertionSort strikeLE (chainFilter chain)
  have hmin : ∀ x ∈ chainFilter chain, c.strikePrice ≤ x.strikePrice := by
    intro x hx
    have hxs : x ∈ chainSorted chain := (List.mem_insertionSort strikeLE).mpr hx
    rw [h, List.mem_cons] at hxs
    rcases hxs with hxc | hxr
    · exact hxc ▸ le_refl _
    · exact (List.sorted_cons.mp hsorted).1 x hxr
  refine ⟨rfl, hmem, hpred.2, hpred.1, hmin, ?_, ?_⟩
  · unfold initializeSelection
    rw [h]
    by_cases hc : c = expectedContract
    · simp [hc]
    · simp [hc]
  · unfold initializeSelection
    rw [h]
    by_cases hc : c = expectedContract
    · simp [hc]
    · simp [hc]

/-- Concrete check of claim C1: on a chain holding puts at strikes 3300, 3200,
3000 and a call at 3200, the selection keeps the two qualifying puts, picks the
strike-3200 put, that put is the expected contract, and the selection
succeeds. -/
theorem initialize_selects_lowest_strike_put_witness :
    chainSorted wChain = expectedContract :: [wPut 3300] ∧
    initializeSelection wChain = Except.ok expectedContract ∧
    (∀ x ∈ chainFilter wChain, expectedContract.strikePrice ≤ x.strikePrice) := by
  have happ := initialize_selects_lowest_strike_put wChain expectedContract [wPut 3300] rfl
  exact ⟨rfl, happ.2.2.2.2.2.1.mpr rfl, happ.2.2.2.2.1⟩

/-- Claim C10: the filtered chain is empty exactly when selection fails with an
IndexError from the unguarded subscript, and the contract-identity
AssertionError can only arise from a non-empty filtered chain. -/
theorem initialize_empty_filter_index_error (chain : List Symbol) :
    (chainFilter chain = [] ↔ initializeSelection chain = .error .indexError) ∧
    (∀ m, initializeSelection chain = .error (.assertionError m) →
      chainFilter chain ≠ []) := by
  have hfwd : chainFilter chain = [] → initializeSelection chain = .error .indexError := by
    intro hf
    unfold initializeSelection chainSorted
    rw [hf]
    rfl
  have hbwd : initializeSelection chain = .error .indexError → chainFilter chain = [] := by
    intro hi
    cases hc : chainSorted chain with
    | nil =>
        have hperm : List.Perm (chainSorted chain) (chainFilter chain) :=
          List.perm_insertionSort strikeLE (chainFilter chain)
        rw [hc] at hperm
        exact hperm.symm.eq_nil
    | cons c rest =>
        unfold initializeSelection at hi
        rw [hc] at hi
        by_cases hce : c = expectedContract
        · simp [hce] at hi
        · simp [hce] at hi
  refine ⟨⟨hfwd, hbwd⟩, ?_⟩
  intro m hm hf
  rw [hfwd hf] at hm
  exact PyError.noConfusion (Except.error.inj hm)

/-- Concrete check of claim C10: a chain holding only a call at 3200 and a put
at 3000 filters to the empty list, and selection fails with an IndexError. -/
theorem initialize_empty_filter_index_error_witness :
    initializeSelection wEmptyChain = Except.error PyError.indexError :=
  (initialize_empty_filter_index_error wEmptyChain).1.mp (by decide)

/-- Claim C2: the holdings assertion routine raises exactly when a sell fill
sees holdings different from -1, a buy fill sees holdings different from 0, or
the fill carries the assignment flag; every raise is an AssertionError, and
otherwise nothing is raised. -/
theorem assert_order_raises_iff (s : AlgoState) (e : OrderEvent) (sec : Security) :
    ((AssertFutureOptionContractOrder s e sec).1 = .ok () ↔
      ¬((e.direction = .Sell ∧ sec.holdings.quantity ≠ -1) ∨
        (e.direction = .Buy ∧ sec.holdings.quantity ≠ 0) ∨
        e.isAssignment = true)) ∧
    ((AssertFutureOptionContractOrder s e sec).1 = .ok () ∨
      ∃ m, (AssertFutureOptionContractOrder s e sec).1 = .error (.assertionError m)) := by
  unfold AssertFutureOptionContractOrder
  split_ifs with h1 h2 h3 <;> simp_all

/-- Unfolding equation for the delisting loop on a non-empty slice. -/
lemma checkDelistings_cons (d : Delisting) (rest : List Delisting) :
    checkDelistings (d :: rest) =
      match checkDelisting d with
      | .error e => .error e
      | .ok _ => checkDelistings rest := rfl

/-- One delisting event passes the check exactly when its timestamp matches its
phase. -/
lemma checkDelisting_ok_iff (d : Delisting) :
    checkDelisting d = .ok () ↔
      ((d.type = .Warning → d.time = dateOf 2021 3 19) ∧
       (d.type = .Delisted → d.time = dateOf 2021 3 20)) := by
  unfold checkDelisting
  split_ifs with h1 h2 <;> simp_all

/-- A failing delisting check fails with an AssertionError. -/
lemma checkDelisting_error (d : Delisting) :
    checkDelisting d = .ok () ∨ ∃ m, checkDelisting d = .error (.assertionError m) := by
  unfold checkDelisting
  split_ifs <;> simp

/-- The delisting loop passes exactly when every event in the slice passes. -/
lemma checkDelistings_ok_iff (ds : List Delisting) :
    checkDelistings ds = .ok () ↔ ∀ d ∈ ds, checkDelisting d = .ok () := by
  induction ds with
  | nil => simp [checkDelistings]
  | cons d rest ih =>
      rw [checkDelistings_cons]
      cases hc : checkDelisting d with
      | error e =>
          simp only [List.mem_cons]
          constructor
          · intro h; exact absurd h (by simp)
          · intro h
            have := h d (Or.inl rfl)
            rw [hc] at this
            exact absurd this (by simp)
      | ok u =>
          cases u
          simp only [List.mem_cons, ih]
          constructor
          · intro h
            rintro x (rfl | hx)
            · exact hc
            · exact h x hx
          · intro h x hx
            exact h x (Or.inr hx)

/-- The delisting loop raises only AssertionErrors. -/
lemma checkDelistings_error (ds : List Delisting) :
    checkDelistings ds = .ok () ∨ ∃ m, checkDelistings ds = .error (.assertionError m) := by
  induction ds with
  | nil => left; rfl
  | cons d rest ih =>
      rw [checkDelistings_cons]
      cases hc : checkDelisting d with
      | error e =>
          rcases checkDelisting_error d with h | ⟨m, hm⟩
          · rw [hc] at h; exact absurd h (by simp)
          · rw [hc] at hm
            right
            exact ⟨m, by rw [← hm]⟩
      | ok u => cases u; exact ih

/-- Claim C3: the data handler accepts a slice exactly when every delisting
warning in it is timestamped 2021-03-19 and every final delisting is
timestamped 2021-03-20; any violation raises an AssertionError, and the
instance state is never mutated. -/
theorem onData_asserts_delisting_times (s : AlgoState) (ds : List Delisting) :
    ((OnData s ds).1 = .ok () ↔ ∀ d ∈ ds,
        (d.type = .Warning → d.time = dateOf 2021 3 19) ∧
        (d.type = .Delisted → d.time = dateOf 2021 3 20)) ∧
    ((OnData s ds).1 = .ok () ∨ ∃ m, (OnData s ds).1 = .error (.assertionError m)) ∧
    (OnData s ds).2 = s := by
  refine ⟨?_, checkDelistings_error ds, rfl⟩
  rw [show (OnData s ds).1 = checkDelistings ds from rfl, checkDelistings_ok_iff]
  exact forall₂_congr fun d _ => checkDelisting_ok_iff d

/-- Claim C4: the end-of-run handler raises an AssertionError exactly when the
portfolio invested flag is set, and never mutates the instance state. -/
theorem onEnd_raises_iff_invested (s : AlgoState) (p : Portfolio) :
    ((OnEndOfAlgorithm s p).1 = .ok () ↔ p.invested = false) ∧
    ((∃ m, (OnEndOfAlgorithm s p).1 = .error (.assertionError m)) ↔ p.invested = true) ∧
    (OnEndOfAlgorithm s p).2 = s := by
  unfold OnEndOfAlgorithm
  cases hp : p.invested <;> simp

/-- A successful lookup in the securities map returns an entry of the map. -/
lemma lookup_mem :
    ∀ {secs : Securities} {k : Symbol} {sec : Security},
      secs.lookup k = some sec → (k, sec) ∈ secs := by
  intro secs
  induction secs with
  | nil => intro k sec h; exact absurd h (by simp)
  | cons p rest ih =>
      intro k sec h
      obtain ⟨pk, psec⟩ := p
      rw [List.lookup] at h
      by_cases hk : k = pk
      · subst hk
        simp only [beq_self_eq_true] at h
        injection h with h
        exact h ▸ List.mem_cons_self _ _
      · rw [show (k == pk) = false from beq_eq_false_iff_ne.mpr hk] at h
        exact List.mem_cons_of_mem _ (ih h)

/-- Claim C5: the order-event handler returns silently on non-fill events; on a
fill it raises when the symbol is unknown to the securities map, when it is the
underlying future, or when it is any known symbol other than the expected
contract; only a fill on the expected contract reaches the holdings assertion
routine.  The map is assumed well-formed: each stored security carries its own
key as symbol, as the engine guarantees. -/
theorem onOrderEvent_filters (s : AlgoState) (secs : Securities) (e : OrderEvent)
    (hwf : ∀ p ∈ secs, (p.2).symbol = p.1) :
    (e.status ≠ .Filled → OnOrderEvent s secs e = (.ok (), s)) ∧
    (e.status = .Filled → secs.lookup e.symbol = none →
      OnOrderEvent s secs e =
        (.error (.assertionError "Order event Symbol not found in Securities collection"), s)) ∧
    (∀ sec, e.status = .Filled → secs.lookup e.symbol = some sec →
      e.symbol = s.es19h21 →
      OnOrderEvent s secs e =
        (.error (.assertionError "Expected no order events for underlying Symbol"), s)) ∧
    (∀ sec, e.status = .Filled → secs.lookup e.symbol = some sec →
      e.symbol ≠ s.es19h21 → e.symbol ≠ s.expectedContract →
      OnOrderEvent s secs e =
        (.error (.assertionError "Received order event for unknown Symbol"), s)) ∧
    (∀ sec, e.status = .Filled → secs.lookup e.symbol = some sec →
      e.symbol ≠ s.es19h21 → e.symbol = s.expectedContract →
      OnOrderEvent s secs e = AssertFutureOptionContractOrder s e sec) := by
  have hsym : ∀ sec, secs.lookup e.symbol = some sec → sec.symbol = e.symbol :=
    fun sec hl => hwf _ (lookup_mem hl)
  refine ⟨?_, ?_, ?_, ?_, ?_⟩
  · intro hnf
    unfold OnOrderEvent
    rw [if_pos hnf]
  · intro hf hl
    unfold OnOrderEvent
    rw [if_neg (fun hne => hne hf), hl]
  · intro sec hf hl he
    unfold OnOrderEvent
    rw [if_neg (fun hne => hne hf), hl]
    simp only []
    rw [if_pos (by rw [hsym sec hl, he])]
  · intro sec hf hl he1 he2
    unfold OnOrderEvent
    rw [if_neg (fun hne => hne hf), hl]
    simp only []
    rw [if_neg (by rw [hsym sec hl]; exact he1),
        if_neg (by rw [hsym sec hl]; exact he2)]
  · intro sec hf hl he1 he2
    unfold OnOrderEvent
    rw [if_neg (fun hne => hne hf), hl]
    simp only []
    rw [if_neg (by rw [hsym sec hl]; exact he1),
        if_pos (by rw [hsym sec hl]; exact he2)]

/-- Concrete check of claim C5: a fill on the AAPL equity, which is in the
securities map but is neither the underlying future nor the expected contract,
raises the unknown-symbol AssertionError. -/
theorem onOrderEvent_filters_witness :
    OnOrderEvent wState wSecs wEvent =
      (.error (.assertionError "Received order event for unknown Symbol"), wState) :=
  (onOrderEvent_filters wState wSecs wEvent (by decide)).2.2.2.1
    ⟨wAapl, ⟨0⟩⟩ rfl rfl (by decide) (by decide)

/-- The holdings assertion routine leaves the instance state unchanged. -/
lemma assertOrder_state (s : AlgoState) (e : OrderEvent) (sec : Security) :
    (AssertFutureOptionContractOrder s e sec).2 = s := by
  unfold AssertFutureOptionContractOrder
  split_ifs <;> rfl

/-- The order-event handler leaves the instance state unchanged. -/
lemma onOrderEvent_state (s : AlgoState) (secs : Securities) (e : OrderEvent) :
    (OnOrderEvent s secs e).2 = s := by
  unfold OnOrderEvent
  repeat' split
  all_goals first | rfl | exact assertOrder_state s e _

/-- The end-of-run handler leaves the instance state unchanged. -/
lemma onEnd_state (s : AlgoState) (p : Portfolio) :
    (OnEndOfAlgorithm s p).2 = s := by
  unfold OnEndOfAlgorithm
  split_ifs <;> rfl

/-- Claim C7: the instance fields assigned during setup are never mutated by a
later callback: the data handler, the order-event handler, the scheduled
callback, the holdings assertion routine and the end-of-run handler all return
the instance state they were given. -/
theorem callbacks_preserve_instance_fields (s : AlgoState) (ds : List Delisting)
    (secs : Securities) (e : OrderEvent) (sec : Security) (p : Portfolio) :
    (OnData s ds).2 = s ∧
    (OnOrderEvent s secs e).2 = s ∧
    (ScheduledMarketOrder s).2 = s ∧
    (AssertFutureOptionContractOrder s e sec).2 = s ∧
    (OnEndOfAlgorithm s p).2 = s :=
  ⟨rfl, onOrderEvent_state s secs e, rfl, assertOrder_state s e sec, onEnd_state s p⟩

/-- Claim C8: a run is a pure function of the instance state and the
host-supplied event trace, so two runs on identical inputs produce identical
outcomes. -/
theorem run_deterministic (s1 s2 : AlgoState) (evs1 evs2 : List HostEvent)
    (hs : s1 = s2) (he : evs1 = evs2) : run s1 evs1 = run s2 evs2 := by
  rw [hs, he]

/-- Concrete check of claim C8: two runs of the nominal scenario trace agree. -/
theorem run_deterministic_witness :
    run wState w6Events = run wState w6Events :=
  run_deterministic wState wState w6Events w6Events rfl rfl

/-- One delisting check never reads the symbol of the event. -/
lemma checkDelisting_relabel (f : Symbol → Symbol) (d : Delisting) :
    checkDelisting (relabel f d) = checkDelisting d := rfl

/-- Claim C9: the delisting checks ignore which security the event concerns:
relabelling every event symbol leaves the data handler's outcome unchanged, and
a mistimed warning or final delisting raises even when the event is for an
arbitrary symbol such as the liquidity-anchor equity. -/
theorem onData_ignores_delisting_symbol (s : AlgoState) (ds : List Delisting)
    (f : Symbol → Symbol) (sym : Symbol) (t1 t2 : DateTime)
    (h1 : t1 ≠ dateOf 2021 3 19) (h2 : t2 ≠ dateOf 2021 3 20) :
    OnData s (ds.map (relabel f)) = OnData s ds ∧
    (OnData s [⟨sym, .Warning, t1⟩]).1 =
      .error (.assertionError "Delisting warning issued at unexpected date") ∧
    (OnData s [⟨sym, .Delisted, t2⟩]).1 =
      .error (.assertionError "Delisting happened at unexpected date") := by
  refine ⟨?_, ?_, ?_⟩
  · have : ∀ l : List Delisting, checkDelistings (l.map (relabel f)) = checkDelistings l := by
      intro l
      induction l with
      | nil => rfl
      | cons d rest ih =>
          rw [List.map_cons, checkDelistings_cons, checkDelistings_cons,
              checkDelisting_relabel, ih]
    unfold OnData
    rw [this ds]
  · show checkDelistings [⟨sym, .Warning, t1⟩] = _
    rw [checkDelistings_cons,
        show checkDelisting ⟨sym, .Warning, t1⟩ =
          Except.error (.assertionError "Delisting warning issued at unexpected date") from by
            unfold checkDelisting
            rw [if_pos ⟨rfl, h1⟩]]
  · show checkDelistings [⟨sym, .Delisted, t2⟩] = _
    rw [checkDelistings_cons,
        show checkDelisting ⟨sym, .Delisted, t2⟩ =
          Except.error (.assertionError "Delisting happened at unexpected date") from by
            unfold checkDelisting
            rw [if_neg (fun hc => DelistingType.noConfusion hc.1), if_pos ⟨rfl, h2⟩]]

/-- Concrete check of claim C9: a delisting warning on the AAPL equity dated
2021-03-20 raises the warning-date AssertionError even though AAPL is not the
selected contract. -/
theorem onData_ignores_delisting_symbol_witness :
    (OnData wState [⟨wAapl, .Warning, dateOf 2021 3 20⟩]).1 =
      .error (.assertionError "Delisting warning issued at unexpected date") :=
  (onData_ignores_delisting_symbol wState [] id wAapl (dateOf 2021 3 20)
    (dateOf 2021 3 19) (by decide) (by decide)).2.1

/-- Every callback dispatch leaves the instance state unchanged. -/
lemma step_state (s : AlgoState) (ev : HostEvent) : (step s ev).2.2 = s := by
  cases ev with
  | scheduledFire => rfl
  | dataSlice ds => rfl
  | orderEvent secs e => exact onOrderEvent_state s secs e
  | endOfRun p => exact onEnd_state s p

/-- Unfolding equation for `run` on a non-empty trace. -/
lemma run_cons (s : AlgoState) (ev : HostEvent) (rest : List HostEvent) :
    run s (ev :: rest) =
      match step s ev with
      | (.error e, _, _) => .error e
      | (.ok _, orders, s1) =>
          match run s1 rest with
          | .error e => .error e
          | .ok (os, s2) => .ok (orders ++ os, s2) := rfl

/-- On a successful run the tail of the trace contributes its own orders on the
unchanged state. -/
lemma run_ok_tail (s : AlgoState) (rest : List HostEvent) (orders os : List OrderRequest)
    (s2 : AlgoState)
    (h : (match run s rest with
          | .error e => Except.error e
          | .ok (os', s2') => Except.ok (orders ++ os', s2')) = .ok (os, s2))
    (ih : ∀ os' s2', run s rest = .ok (os', s2') →
      os' = List.replicate (countScheduled rest) ⟨s.esOption, -1⟩ ∧ s2' = s) :
    os = orders ++ List.replicate (countScheduled rest) ⟨s.esOption, -1⟩ ∧ s2 = s := by
  cases hrun : run s rest with
  | error e =>
      rw [hrun] at h
      exact absurd h (by simp)
  | ok pair =>
      obtain ⟨os', s2'⟩ := pair
      rw [hrun] at h
      simp only [Except.ok.injEq, Prod.mk.injEq] at h
      obtain ⟨hos, hs2⟩ := h
      obtain ⟨hrep, hs⟩ := ih os' s2' hrun
      rw [← hos, ← hs2, hrep, hs]
      exact ⟨rfl, rfl⟩

/-- On a successful run the submitted orders are one sell of the selected
option per scheduled firing, and the state is unchanged. -/
lemma run_ok (s : AlgoState) (evs : List HostEvent) (os : List OrderRequest)
    (s2 : AlgoState) (h : run s evs = .ok (os, s2)) :
    os = List.replicate (countScheduled evs) ⟨s.esOption, -1⟩ ∧ s2 = s := by
  induction evs generalizing os s2 with
  | nil =>
      simp only [run] at h
      injection h with h
      exact ⟨(congrArg Prod.fst h).symm, (congrArg Prod.snd h).symm⟩
  | cons ev rest ih =>
      rw [run_cons] at h
      cases ev with
      | scheduledFire =>
          simp only [step, ScheduledMarketOrder] at h
          have := run_ok_tail s rest [⟨s.esOption, -1⟩] os s2 h (fun os' s2' hr => ih os' s2' hr)
          rw [show countScheduled (HostEvent.scheduledFire :: rest) =
                countScheduled rest + 1 from by simp [countScheduled, List.countP_cons]]
          rw [show List.replicate (countScheduled rest + 1) (⟨s.esOption, -1⟩ : OrderRequest) =
                [⟨s.esOption, -1⟩] ++ List.replicate (countScheduled rest) ⟨s.esOption, -1⟩ from rfl]
          exact this
      | dataSlice ds =>
          simp only [step, OnData] at h
          cases hr : checkDelistings ds with
          | error e =>
              rw [hr] at h
              exact absurd h (by simp)
          | ok u =>
              cases u
              rw [hr] at h
              simp only at h
              have := run_ok_tail s rest [] os s2 h (fun os' s2' hrr => ih os' s2' hrr)
              rw [show countScheduled (HostEvent.dataSlice ds :: rest) =
                    countScheduled rest from by simp [countScheduled, List.countP_cons]]
              simpa using this
      | orderEvent secs e =>
          simp only [step, onOrderEvent_state] at h
          cases hr : (OnOrderEvent s secs e).1 with
          | error err =>
              rw [hr] at h
              exact absurd h (by simp)
          | ok u =>
              cases u
              rw [hr] at h
              simp only at h
              have := run_ok_tail s rest [] os s2 h (fun os' s2' hrr => ih os' s2' hrr)
              rw [show countScheduled (HostEvent.orderEvent secs e :: rest) =
                    countScheduled rest from by simp [countScheduled, List.countP_cons]]
              simpa using this
      | endOfRun p =>
          simp only [step, onEnd_state] at h
          cases hr : (OnEndOfAlgorithm s p).1 with
          | error err =>
              rw [hr] at h
              exact absurd h (by simp)
          | ok u =>
              cases u
              rw [hr] at h
              simp only at h
              have := run_ok_tail s rest [] os s2 h (fun os' s2' hrr => ih os' s2' hrr)
              rw [show countScheduled (HostEvent.endOfRun p :: rest) =
                    countScheduled rest from by simp [countScheduled, List.countP_cons]]
              simpa using this

/-- Claim C6: the scheduled callback submits exactly one market order, a sell
of quantity -1 on the selected option contract, and on a run whose trace fires
the schedule once this is the only order submitted. -/
theorem single_scheduled_sell_order (s : AlgoState) (evs : List HostEvent)
    (os : List OrderRequest) (s2 : AlgoState)
    (h : run s evs = .ok (os, s2)) (hcount : countScheduled evs = 1) :
    ScheduledMarketOrder s = ([⟨s.esOption, -1⟩], s) ∧
    os = [⟨s.esOption, -1⟩] ∧ s2 = s := by
  obtain ⟨ho, hs⟩ := run_ok s evs os s2 h
  exact ⟨rfl, by rw [ho, hcount]; rfl, hs⟩

/-- Concrete check of claim C6: on the nominal trace the run submits exactly
the single scheduled sell of one option contract. -/
theorem single_scheduled_sell_order_witness :
    countScheduled w6Events = 1 ∧
    run wState w6Events = Except.ok ([⟨wState.esOption, -1⟩], wState) ∧
    ScheduledMarketOrder wState = ([⟨wState.esOption, -1⟩], wState) :=
  ⟨by decide, rfl,
    (single_scheduled_sell_order wState w6Events [⟨wState.esOption, -1⟩] wState
      rfl (by decide)).1⟩

end FOSP
